import Mathlib

/-!
Shallow embedding of `manifest-splitter` (src/main.go): the manifest resource
model and its decode/expand/validate/classify pipeline.

Modelling conventions:
* Kubernetes `unstructured.Unstructured` documents are modelled by `Obj`: the
  fields the pipeline reads (`apiVersion`, `kind`, `metadata.name`,
  `metadata.namespace`, `items`).  `GetNamespace` of a missing field is the
  empty string, and `SetNamespace ""` (which deletes the field in Go) is
  modelled as storing the empty string.  `IsList` in Go tests for the presence
  of an `items` array; here `items = some _`.
* Byte slices are modelled as `String`, maps as association lists (an explicit
  iteration order stands in for Go's nondeterministic map order; the theorems
  quantify over that order where it matters).
* The external YAML/JSON unmarshal and marshal calls (package `sigs.k8s.io/yaml`
  and `encoding/json`) are passed in as explicit `parse`/`encode` function
  parameters: they are external collaborators of the repository.
* Go functions returning `error` become `Except`; in-place mutation through
  pointers becomes explicit state passing (the updated value is returned).
-/

/-- The subset of an `unstructured.Unstructured` document read by main.go:
`apiVersion`, `kind`, `metadata.name`, `metadata.namespace` and the `items`
array (present exactly for List-shaped documents).  Nested list items are again
documents, hence the nested inductive. -/
inductive Obj : Type where
  | mk (apiVersion kind name metaNamespace : String) (items : Option (List Obj)) : Obj

def Obj.getAPIVersion : Obj → String
  | .mk a _ _ _ _ => a

def Obj.getKind : Obj → String
  | .mk _ k _ _ _ => k

def Obj.getName : Obj → String
  | .mk _ _ n _ _ => n

/-- `Unstructured.GetNamespace`: reads `metadata.namespace`, empty if absent. -/
def Obj.getNamespace : Obj → String
  | .mk _ _ _ ns _ => ns

def Obj.getItems : Obj → Option (List Obj)
  | .mk _ _ _ _ its => its

/-- `Unstructured.IsList`: true iff the document carries an `items` array. -/
def Obj.isList (o : Obj) : Bool := o.getItems.isSome

/-- `Unstructured.SetNamespace`. -/
def Obj.setNamespace : Obj → String → Obj
  | .mk a k n _ its, ns => .mk a k n ns its

/-- Replace the `items` array (models the in-place mutation of list items that
happens through the shared underlying maps in Go). -/
def Obj.setItems : Obj → List Obj → Obj
  | .mk a k n ns _, its => .mk a k n ns (some its)

/-- `schema.GroupKind`. -/
structure GroupKind where
  group : String
  kind : String
deriving DecidableEq, Repr

/-- The group component of an `apiVersion` string: the part before `/`, or
empty when there is no `/` (core group), as in
`schema.FromAPIVersionAndKind`. -/
def apiVersionGroup (apiVersion : String) : String :=
  match apiVersion.splitOn "/" with
  | [_only] => ""
  | g :: _ => g
  | [] => ""

/-- `GroupVersionKind().GroupKind()` of a document. -/
def Obj.groupKind (o : Obj) : GroupKind :=
  ⟨apiVersionGroup o.getAPIVersion, o.getKind⟩

/-- `schema.GroupKind.String()`: `kind.group`, or just `kind` for the core
group. -/
def GroupKind.toStr (gk : GroupKind) : String :=
  if gk.group = "" then gk.kind else gk.kind ++ "." ++ gk.group

/-- The `format` type of main.go (`"json"` / `"yaml"`). -/
inductive Format : Type where
  | json
  | yaml
deriving DecidableEq, Repr

def Format.toStr : Format → String
  | .json => "json"
  | .yaml => "yaml"

/-- The `resource` struct of main.go. -/
structure resource where
  idx : Nat
  inputFilename : String
  data : String
  format : Format
  obj : Obj
  namespaced : Bool
  listNamespaceName : String

/-- Validation errors produced by the validator; each constructor carries the
data interpolated into the corresponding `fmt.Errorf` message in main.go. -/
inductive VErr : Type where
  /-- `"namespaced resource %q missing metadata.namespace field"` -/
  | missingNamespace (r : resource)
  /-- `"found more than one namespace declared in resources in a single list
  in file %q: %v"` (the set is kept in insertion order) -/
  | listNamespaceConflict (inputFilename : String) (namespaces : List String)
  /-- `"non-list resource passed to validateResourceList"` -/
  | nonListResource
  /-- `"found duplicate resource %s/%s with group/kind %q"` -/
  | duplicateResource (ns name : String) (gk : String)

/-- Insertion into the `declaredNamespaces` set (a Go `map[string]struct{}`),
modelled as a duplicate-free list in insertion order. -/
def insertDedup (l : List String) (s : String) : List String :=
  if l.contains s then l else l ++ [s]

theorem Obj.sizeOf_items_lt (o : Obj) (its : List Obj) (h : o.getItems = some its) :
    sizeOf its < sizeOf o := by
  cases o with
  | mk a k n ns i =>
    cases i with
    | none => simp [Obj.getItems] at h
    | some l =>
      simp [Obj.getItems] at h
      subst h
      simp
      omega

mutual

/-- `validateResource` of main.go.  In Go the resource is mutated through a
pointer; here the (possibly updated) resource is returned on success. -/
def validateResource (r : resource) : Except VErr resource :=
  if r.obj.isList then validateResourceList r
  else if r.namespaced ∧ r.obj.getNamespace = "" then .error (.missingNamespace r)
  else if ¬ r.namespaced ∧ r.obj.getNamespace ≠ "" then
    .ok { r with obj := r.obj.setNamespace "" }
  else .ok r
termination_by (sizeOf r.obj, 1)

/-- `validateResourceList` of main.go: checks that all list items declare one
single namespace, validates each item with `validateResource` (on a copy of
the surrounding resource whose `obj` is the item), and records the single
observed namespace as `listNamespaceName`. -/
def validateResourceList (r : resource) : Except VErr resource :=
  match h : r.obj.getItems with
  | none => .error .nonListResource
  | some items =>
    match validateListItems r [] "" items with
    | .error e => .error e
    | .ok (items', ns) =>
      .ok { r with obj := r.obj.setItems items', listNamespaceName := ns }
termination_by (sizeOf r.obj, 0)
decreasing_by
  exact Prod.Lex.left _ _ (Obj.sizeOf_items_lt r.obj items h)

/-- The `EachListItem` closure of `validateResourceList`, one step per item:
insert the item's declared namespace into `declared`, fail once two distinct
namespaces have been seen, remember the (pre-validation) namespace in `ns`,
then validate the item itself.  Returns the validated (possibly
namespace-cleared) items together with the final `ns`. -/
def validateListItems (r : resource) (declared : List String) (ns : String) :
    (items : List Obj) → Except VErr (List Obj × String)
  | [] => .ok ([], ns)
  | o :: rest =>
    let declared' := insertDedup declared o.getNamespace
    if declared'.length > 1 then
      .error (.listNamespaceConflict r.inputFilename declared')
    else
      match validateResource { r with obj := o } with
      | .error e => .error e
      | .ok inner' =>
        match validateListItems r declared' o.getNamespace rest with
        | .error e => .error e
        | .ok (rest', nsF) => .ok (inner'.obj :: rest', nsF)
termination_by items => (sizeOf items, 0)

end

/-- `validateResources` of main.go: validate each resource of one file in
order, mutating the slice in place (returned functionally). -/
def validateResources : List resource → Except VErr (List resource)
  | [] => .ok []
  | r :: rest => do
    let r' ← validateResource r
    let rest' ← validateResources rest
    .ok (r' :: rest')

/-- The `namespacedName` struct local to `validateResourceFiles`. -/
structure namespacedName where
  name : String
  nsName : String
deriving DecidableEq, Repr

/-- The `alreadyContains` closure of `validateResourceFiles`. -/
def alreadyContains (list : List namespacedName) (toFind : namespacedName) : Bool :=
  match list with
  | [] => false
  | e :: rest => if toFind = e then true else alreadyContains rest toFind

/-- Lookup in the `existingResources` map (`map[schema.GroupKind][]namespacedName`);
a missing key reads as the empty slice, as in Go. -/
def lookupGK (m : List (GroupKind × List namespacedName)) (gk : GroupKind) :
    List namespacedName :=
  match m with
  | [] => []
  | (k, v) :: rest => if k = gk then v else lookupGK rest gk

/-- The duplicate-detection loop body of `validateResourceFiles` for one file's
resources.  Faithful to the source: it looks the Group-Kind up in
`existing` and tests membership, but — exactly as in main.go — never inserts
the resource it just examined back into the map. -/
def checkDuplicates (existing : List (GroupKind × List namespacedName)) :
    List resource → Except VErr Unit
  | [] => .ok ()
  | r :: rest =>
    let gk := r.obj.groupKind
    let existingNamespacedNames := lookupGK existing gk
    let nn : namespacedName := ⟨r.obj.getName, r.obj.getNamespace⟩
    if alreadyContains existingNamespacedNames nn then
      .error (.duplicateResource r.obj.getNamespace r.obj.getName gk.toStr)
    else checkDuplicates existing rest

/-- The file loop of `validateResourceFiles`: for each input file, local
validation (`validateResources`) followed immediately by that file's
duplicate scan against the (never-updated) `existing` map. -/
def validateFilesGo (existing : List (GroupKind × List namespacedName)) :
    List (String × List resource) → Except VErr (List (String × List resource))
  | [] => .ok []
  | (fname, rs) :: rest => do
    let rs' ← validateResources rs
    let _ ← checkDuplicates existing rs'
    let rest' ← validateFilesGo existing rest
    .ok ((fname, rs') :: rest')

/-- `validateResourceFiles` of main.go.  The catalog (a Go map from input
filename to resources) is modelled as an association list whose order stands
for the map's iteration order. -/
def validateResourceFiles (files : List (String × List resource)) :
    Except VErr (List (String × List resource)) :=
  validateFilesGo [] files

/-! ## Decoder and List Expander (`decodeResourceManifest`, `DecodeYAML`,
`DecodeJSON` of main.go)

A YAML input stream is modelled as its list of lines; the external
`utilyaml.YAMLReader` (an external library collaborator) is modelled at the
granularity the spec describes: a line beginning with `---` is a document
separator, lines accumulate into the current document otherwise, and an empty
document is skipped rather than returned.  (The real reader additionally
rejects separator lines followed by non-comment text and appends a newline to
every line; neither detail is observable by the claims settled here.)
The external `yaml.Unmarshal` / `json.Unmarshal` / `Marshal` calls are
`parse` / `encode` parameters. -/

/-- A `---` document separator line. -/
def isSeparatorLine (line : String) : Bool := line.startsWith "---"

/-- Model of `utilyaml.YAMLReader.Read` (external collaborator): starting with
the buffered lines `buffer`, consume lines until a separator closes a
non-empty document or the stream ends; return the document and the remaining
stream, or `none` at end of stream. -/
def yamlReaderRead (buffer : List String) : List String → Option (List String × List String)
  | [] => if buffer.isEmpty then none else some (buffer, [])
  | line :: rest =>
    if isSeparatorLine line then
      if buffer.isEmpty then yamlReaderRead [] rest
      else some (buffer, rest)
    else yamlReaderRead (buffer ++ [line]) rest

theorem yamlReaderRead_rest_length {b s c r} (h : yamlReaderRead b s = some (c, r)) :
    r.length ≤ s.length := by
  induction s generalizing b with
  | nil =>
    by_cases hb : b.isEmpty <;> simp [yamlReaderRead, hb] at h
    simp [h.2]
  | cons line rest ih =>
    rw [yamlReaderRead] at h
    by_cases hsep : isSeparatorLine line
    · by_cases hb : b.isEmpty
      · simp [hsep, hb] at h
        exact le_trans (ih h) (Nat.le_succ _)
      · simp [hsep, hb] at h
        simp [h.2]
    · simp [hsep] at h
      exact le_trans (ih h) (Nat.le_succ _)

theorem yamlReaderRead_start_length {s c r} (h : yamlReaderRead [] s = some (c, r)) :
    r.length < s.length := by
  cases s with
  | nil => simp [yamlReaderRead] at h
  | cons line rest =>
    rw [yamlReaderRead] at h
    by_cases hsep : isSeparatorLine line
    · simp [hsep, List.isEmpty] at h
      exact Nat.lt_succ_of_le (yamlReaderRead_rest_length h)
    · simp [hsep] at h
      exact Nat.lt_succ_of_le (yamlReaderRead_rest_length h)

/-- `DecodeYAML` of main.go: read the next document chunk via the YAML reader
and unmarshal it; `ok none` is the end-of-stream signal (`io.EOF`). -/
def DecodeYAML (parse : List String → Except String Obj) (stream : List String) :
    Except String (Option (List String × Obj × List String)) :=
  match yamlReaderRead [] stream with
  | none => .ok none
  | some (bytes, rest) =>
    match parse bytes with
    | .error e => .error e
    | .ok o => .ok (some (bytes, o, rest))

theorem DecodeYAML_some_reader {parse stream b o rest}
    (h : DecodeYAML parse stream = .ok (some (b, o, rest))) :
    yamlReaderRead [] stream = some (b, rest) := by
  unfold DecodeYAML at h
  cases hr : yamlReaderRead [] stream with
  | none => simp [hr] at h
  | some p =>
    obtain ⟨c, r⟩ := p
    rw [hr] at h
    cases hp : parse c with
    | error e => simp [hp] at h
    | ok o2 =>
      simp [hp] at h
      obtain ⟨h1, _h2, h3⟩ := h
      rw [h1, h3]

/-- The decode loop of `decodeResourceManifest` restricted to what the Stream
Decoder yields: repeatedly call `DecodeYAML` until end of stream, collecting
every `(rawBytes, parsedForm)` pair. -/
def decodeYAMLStream (parse : List String → Except String Obj) (s : List String) :
    Except String (List (List String × Obj)) :=
  match h : DecodeYAML parse s with
  | .error e => .error e
  | .ok none => .ok []
  | .ok (some (bytes, o, rest)) =>
    have : rest.length < s.length :=
      yamlReaderRead_start_length (DecodeYAML_some_reader h)
    match decodeYAMLStream parse rest with
    | .error e => .error e
    | .ok l => .ok ((bytes, o) :: l)
termination_by s.length

/-- Specification-side description of `---` splitting: all documents of the
stream, in order, including empty ones. -/
def splitOnSeparatorsAux (buffer : List String) : List String → List (List String)
  | [] => [buffer]
  | line :: rest =>
    if isSeparatorLine line then buffer :: splitOnSeparatorsAux [] rest
    else splitOnSeparatorsAux (buffer ++ [line]) rest

def splitOnSeparators (s : List String) : List (List String) :=
  splitOnSeparatorsAux [] s

/-- Specification-side description of the YAML documents a stream holds: the
`---`-delimited documents that are non-empty. -/
def yamlDocs (s : List String) : List (List String) :=
  (splitOnSeparators s).filter (fun c => !c.isEmpty)

/-- The List Expander: the `EachListItem` closure in `decodeResourceManifest`
(lines 323-341 of main.go).  Each item is re-encoded into the stream's format;
a successfully encoded item is appended with the next sequential index.  As in
the source, an encoding failure stops the iteration: `EachListItem` returns
the error, and the caller discards it, keeping the items appended so far. -/
def expandListItems (encode : Obj → Except String String) (input : String) (fmt : Format) :
    Nat → List resource → List Obj → Nat × List resource
  | idx, acc, [] => (idx, acc)
  | idx, acc, o :: rest =>
    match encode o with
    | .error _ => (idx, acc)
    | .ok data =>
      expandListItems encode input fmt (idx + 1)
        (acc ++ [{ idx := idx, inputFilename := input, data := data, format := fmt,
                   obj := o, namespaced := false, listNamespaceName := "" }]) rest

/-- `decodeResourceManifest` of main.go specialised to a JSON stream (the
`DecodeJSON` branch): `DecodeJSON` reads the whole stream, reports `io.EOF`
when it is empty and otherwise unmarshals it as exactly one value, so the
decode loop processes at most one document and terminates on the second
iteration.  Documents missing `kind` or `apiVersion` are skipped; a List
document is expanded when `expandLists` is set. -/
def decodeResourceManifestJSON (parse : String → Except String Obj)
    (encode : Obj → Except String String) (expandLists : Bool)
    (input : String) (stream : String) : Except String (List resource) :=
  if stream = "" then .ok []
  else
    match parse stream with
    | .error e => .error e
    | .ok u =>
      if u.getAPIVersion = "" ∨ u.getKind = "" then .ok []
      else if expandLists ∧ u.isList then
        .ok (expandListItems encode input .json 0 [] (u.getItems.getD [])).2
      else .ok [{ idx := 0, inputFilename := input, data := stream, format := .json,
                  obj := u, namespaced := false, listNamespaceName := "" }]

/-! ## Filename derivation and classification (`resourceFilename` and the
output loop of `main`) -/

/-- `filepath.Base` (for the paths used here: no trailing slash handling of
Go's `Clean` beyond stripping trailing `/`). -/
def filepathBase (p : String) : String :=
  if p = "" then "."
  else
    let cs := p.toList.reverse.dropWhile (fun c => c = '/')
    if cs.isEmpty then "/"
    else String.mk (cs.takeWhile (fun c => c ≠ '/')).reverse

/-- `filepath.Ext`: the suffix of the final path element starting at its final
dot, or empty when it has no dot. -/
def filepathExt (p : String) : String :=
  let seg := p.toList.reverse.takeWhile (fun c => c ≠ '/')
  if seg.contains '.' then String.mk ('.' :: (seg.takeWhile (fun c => c ≠ '.')).reverse)
  else ""

/-- `strings.TrimSuffix`: drop `suffix` when `s` ends with it. -/
def trimSuffix (s suffix : String) : String :=
  let sl := s.toList
  let fl := suffix.toList
  if fl.isSuffixOf sl then String.mk (sl.take (sl.length - fl.length)) else s

/-- `resourceFilename` of main.go. -/
def resourceFilename (r : resource) : String :=
  if r.obj.isList then
    let inputFileName := filepathBase r.inputFilename
    let inputFileNameStripped := trimSuffix inputFileName (filepathExt inputFileName)
    r.obj.getKind ++ "-" ++ toString r.idx ++ "-" ++ inputFileNameStripped ++ "." ++ r.format.toStr
  else if r.obj.getKind = "Namespace" ∧ r.obj.getAPIVersion = "v1" then
    "namespace." ++ r.format.toStr
  else
    r.obj.getKind ++ "-" ++ r.obj.getName ++ "." ++ r.format.toStr

/-- `filepath.Join` of two components (simplified: the paths joined here are
already clean). -/
def filepathJoin (a b : String) : String :=
  if a = "" then b else if b = "" then a else a ++ "/" ++ b

/-- The bucket computation of `main`'s output loop (lines 90-106): a
resource's namespace, overridden by `listNamespaceName` for lists and by the
resource's own name for `v1` `Namespace` objects. -/
def classifyBucket (r : resource) : String :=
  let ns := r.obj.getNamespace
  let ns := if r.obj.isList then r.listNamespaceName else ns
  if r.obj.getKind = "Namespace" ∧ r.obj.getAPIVersion = "v1" then r.obj.getName else ns

/-- The directory computation of `main`'s write loop (lines 109-127): bucket
`""` maps to `cluster/`, other buckets to `namespaces/<bucket>/`, and the
bootstrap `Repo` (`configmanagement.gke.io/v1`) resource is overridden to
`system/` regardless of its bucket. -/
def resourceOutputDir (outputDir : String) (ns : String) (r : resource) : String :=
  let dirname :=
    if ns = "" then filepathJoin outputDir "cluster"
    else filepathJoin (filepathJoin outputDir "namespaces") ns
  if r.obj.getKind = "Repo" ∧ r.obj.getAPIVersion = "configmanagement.gke.io/v1" then
    filepathJoin outputDir "system"
  else dirname

/-! ## Phase-ordering instrumentation for `validateResourceFiles`

`validateFilesTrace` mirrors `validateFilesGo` step for step and additionally
records, per input file, the completion of its local validation pass and of
its duplicate (uniqueness) scan, in execution order. -/

inductive VEvent : Type where
  | localValidated (file : String)
  | uniquenessChecked (file : String)
deriving DecidableEq, Repr

/-- `validateResourceFiles` instrumented with a phase trace; the `Except`
component is the result of the uninstrumented function. -/
def validateFilesTrace (existing : List (GroupKind × List namespacedName)) :
    List (String × List resource) → List VEvent × Except VErr Unit
  | [] => ([], .ok ())
  | (fname, rs) :: rest =>
    match validateResources rs with
    | .error e => ([], .error e)
    | .ok rs' =>
      match checkDuplicates existing rs' with
      | .error e => ([.localValidated fname], .error e)
      | .ok _ =>
        (.localValidated fname :: .uniquenessChecked fname ::
            (validateFilesTrace existing rest).1,
          (validateFilesTrace existing rest).2)

/-- The ordering claimed for the two validation passes: once any uniqueness
scan has run, no further local validation happens — i.e. local validation of
all files completes before the global pass begins. -/
def noLocalAfterGlobal : List VEvent → Bool
  | [] => true
  | .localValidated _ :: rest => noLocalAfterGlobal rest
  | .uniquenessChecked _ :: rest =>
    rest.all (fun e => match e with
      | .localValidated _ => false
      | .uniquenessChecked _ => true)

/-! ## Accessor lemmas -/

@[simp] theorem Obj.getAPIVersion_setNamespace (o : Obj) (ns : String) :
    (o.setNamespace ns).getAPIVersion = o.getAPIVersion := by cases o <;> rfl

@[simp] theorem Obj.getKind_setNamespace (o : Obj) (ns : String) :
    (o.setNamespace ns).getKind = o.getKind := by cases o <;> rfl

@[simp] theorem Obj.getName_setNamespace (o : Obj) (ns : String) :
    (o.setNamespace ns).getName = o.getName := by cases o <;> rfl

@[simp] theorem Obj.getNamespace_setNamespace (o : Obj) (ns : String) :
    (o.setNamespace ns).getNamespace = ns := by cases o <;> rfl

@[simp] theorem Obj.getItems_setNamespace (o : Obj) (ns : String) :
    (o.setNamespace ns).getItems = o.getItems := by cases o <;> rfl

@[simp] theorem Obj.isList_setNamespace (o : Obj) (ns : String) :
    (o.setNamespace ns).isList = o.isList := by
  simp [Obj.isList]

@[simp] theorem Obj.getAPIVersion_setItems (o : Obj) (its : List Obj) :
    (o.setItems its).getAPIVersion = o.getAPIVersion := by cases o <;> rfl

@[simp] theorem Obj.getKind_setItems (o : Obj) (its : List Obj) :
    (o.setItems its).getKind = o.getKind := by cases o <;> rfl

@[simp] theorem Obj.getName_setItems (o : Obj) (its : List Obj) :
    (o.setItems its).getName = o.getName := by cases o <;> rfl

@[simp] theorem Obj.getNamespace_setItems (o : Obj) (its : List Obj) :
    (o.setItems its).getNamespace = o.getNamespace := by cases o <;> rfl

@[simp] theorem Obj.getItems_setItems (o : Obj) (its : List Obj) :
    (o.setItems its).getItems = some its := by cases o <;> rfl

@[simp] theorem Obj.isList_setItems (o : Obj) (its : List Obj) :
    (o.setItems its).isList = true := by
  simp [Obj.isList]

/-! ## C6 — per-resource namespace validation -/

/-- C6: for a non-list resource, a namespace-scoped resource without a
namespace is rejected with a hard error naming the resource, while a
non-namespace-scoped resource with a namespace passes validation with the
namespace field cleared (a silent correction, never a rejection). -/
theorem validateResource_namespace_rules (r : resource) (h : r.obj.isList = false) :
    (r.namespaced = true → r.obj.getNamespace = "" →
      validateResource r = .error (.missingNamespace r)) ∧
    (r.namespaced = false → r.obj.getNamespace ≠ "" →
      validateResource r = .ok { r with obj := r.obj.setNamespace "" }) := by
  constructor
  · intro hn hns
    simp [validateResource, h, hn, hns]
  · intro hn hns
    simp [validateResource, h, hn, hns]

def rC6 : resource :=
  ⟨0, "a.yaml", "d", .yaml, .mk "v1" "ConfigMap" "cfg" "" none, true, ""⟩

theorem validateResource_namespace_rules_witness :
    validateResource rC6 = .error (.missingNamespace rC6) :=
  (validateResource_namespace_rules rC6 rfl).1 rfl rfl

/-! ## C9 — idempotence of namespace normalization -/

/-- C9: for a non-namespace-scoped non-list resource, validation is
idempotent: applying `validateResource` to its own successful output is the
identity, and on an already-normalized (empty-namespace) resource it is a
no-op. -/
theorem validateResource_idempotent (r : resource) (h1 : r.namespaced = false)
    (h2 : r.obj.isList = false) :
    (∀ r', validateResource r = .ok r' → validateResource r' = .ok r') ∧
    (r.obj.getNamespace = "" → validateResource r = .ok r) := by
  constructor
  · intro r' hr'
    by_cases hns : r.obj.getNamespace = ""
    · simp [validateResource, h1, h2, hns] at hr'
      subst hr'
      simp [validateResource, h1, h2, hns]
    · simp [validateResource, h1, h2, hns] at hr'
      subst hr'
      simp [validateResource, h1, h2]
  · intro hns
    simp [validateResource, h1, h2, hns]

def rC9 : resource :=
  ⟨0, "a.yaml", "d", .yaml, .mk "rbac.authorization.k8s.io/v1" "ClusterRole" "cr" "x" none,
    false, ""⟩

theorem validateResource_idempotent_witness :
    validateResource { rC9 with obj := rC9.obj.setNamespace "" } =
      .ok { rC9 with obj := rC9.obj.setNamespace "" } := by
  refine (validateResource_idempotent rC9 rfl rfl).1 _ ?_
  simp [validateResource, rC9, Obj.isList, Obj.getItems, Obj.getNamespace, Obj.setNamespace]

/-! ## C7 — classification -/

/-- C7: the output bucket of a validated resource is its own
`metadata.namespace`, except that a List uses `listNamespaceName` and a `v1`
`Namespace` object is bucketed under its own name; the bootstrap
`Repo`/`configmanagement.gke.io/v1` resource is written under the fixed
`system` directory regardless of its bucket, and every other resource is
written under `cluster/` (empty bucket) or `namespaces/<bucket>/`. -/
theorem classifyBucket_rules (r : resource) (outDir : String) :
    (r.obj.isList = false → ¬(r.obj.getKind = "Namespace" ∧ r.obj.getAPIVersion = "v1") →
      classifyBucket r = r.obj.getNamespace) ∧
    (r.obj.isList = true → ¬(r.obj.getKind = "Namespace" ∧ r.obj.getAPIVersion = "v1") →
      classifyBucket r = r.listNamespaceName) ∧
    (r.obj.getKind = "Namespace" → r.obj.getAPIVersion = "v1" →
      classifyBucket r = r.obj.getName) ∧
    (r.obj.getKind = "Repo" → r.obj.getAPIVersion = "configmanagement.gke.io/v1" →
      resourceOutputDir outDir (classifyBucket r) r = filepathJoin outDir "system") ∧
    (¬(r.obj.getKind = "Repo" ∧ r.obj.getAPIVersion = "configmanagement.gke.io/v1") →
      resourceOutputDir outDir (classifyBucket r) r =
        if classifyBucket r = "" then filepathJoin outDir "cluster"
        else filepathJoin (filepathJoin outDir "namespaces") (classifyBucket r)) := by
  refine ⟨?_, ?_, ?_, ?_, ?_⟩
  · intro h1 h2
    simp [classifyBucket, h1, h2]
  · intro h1 h2
    simp [classifyBucket, h1, h2]
  · intro h1 h2
    simp [classifyBucket, h1, h2]
  · intro h1 h2
    simp [resourceOutputDir, h1, h2]
  · intro h1
    by_cases hb : classifyBucket r = "" <;> simp [resourceOutputDir, h1, hb]

def rC7 : resource :=
  ⟨0, "a.yaml", "d", .yaml, .mk "v1" "Namespace" "team-a" "other" none, false, ""⟩

theorem classifyBucket_rules_witness :
    classifyBucket rC7 = rC7.obj.getName :=
  (classifyBucket_rules rC7 "config").2.2.1 rfl rfl

/-! ## C1 — global uniqueness -/

/-- A Deployment `apps/foo` in namespace `ns1`, read from `file`. -/
def depFoo (file : String) : resource :=
  ⟨0, file, "d", .yaml, .mk "apps/v1" "Deployment" "foo" "ns1" none, true, ""⟩

/-- C1: two input files each holding the same Group-Kind/namespace/name
resource are accepted by `validateResourceFiles`: the `existingResources` map
is never populated (no insertion follows the `alreadyContains` lookup in
main.go), so the duplicate error can never fire, contradicting the claimed
hard duplicate error. -/
theorem validateResourceFiles_duplicates_unreported :
    (depFoo "a.yaml").obj.groupKind = (depFoo "b.yaml").obj.groupKind ∧
    (depFoo "a.yaml").obj.getName = (depFoo "b.yaml").obj.getName ∧
    (depFoo "a.yaml").obj.getNamespace = (depFoo "b.yaml").obj.getNamespace ∧
    (validateResourceFiles
        [("a.yaml", [depFoo "a.yaml"]), ("b.yaml", [depFoo "b.yaml"])]).isOk = true := by
  refine ⟨rfl, rfl, rfl, ?_⟩
  simp [validateResourceFiles, validateFilesGo, validateResources, validateResource,
    checkDuplicates, alreadyContains, lookupGK, depFoo, Obj.isList, Obj.getItems,
    Obj.getNamespace, Bind.bind, Except.bind, Except.isOk, Except.toBool]

/-! ## C8 — validation pass ordering -/

def cmNs (file name : String) : resource :=
  ⟨0, file, "d", .yaml, .mk "v1" "ConfigMap" name "ns1" none, true, ""⟩

/-- C8 counterexample: on a two-file catalog that validates successfully, the
phase trace of `validateResourceFiles` runs file `a.yaml`'s uniqueness scan
before file `b.yaml`'s local validation, so local validation of all files does
not complete before the global uniqueness pass begins. -/
theorem validateFilesTrace_not_all_local_first :
    noLocalAfterGlobal
        (validateFilesTrace []
          [("a.yaml", [cmNs "a.yaml" "x"]), ("b.yaml", [cmNs "b.yaml" "y"])]).1 = false ∧
    (validateFilesTrace []
        [("a.yaml", [cmNs "a.yaml" "x"]), ("b.yaml", [cmNs "b.yaml" "y"])]).2 = .ok () := by
  constructor
  · simp [validateFilesTrace, validateResources, validateResource, checkDuplicates,
      alreadyContains, lookupGK, cmNs, Obj.isList, Obj.getItems, Obj.getNamespace,
      Bind.bind, Except.bind, noLocalAfterGlobal]
  · simp [validateFilesTrace, validateResources, validateResource, checkDuplicates,
      alreadyContains, lookupGK, cmNs, Obj.isList, Obj.getItems, Obj.getNamespace,
      Bind.bind, Except.bind]

/-- C8 (amended): `validateResourceFiles` interleaves the two passes per file —
on a successful run the phase trace is exactly, for each input file in
order, that file's local validation immediately followed by that file's
uniqueness scan.  Hence each uniqueness scan observes only resources that have
already been locally validated (namespace-normalized), but local validation of
later files has not yet run when an earlier file is scanned. -/
theorem validateFilesTrace_per_file (existing : List (GroupKind × List namespacedName))
    (files : List (String × List resource))
    (h : (validateFilesTrace existing files).2 = .ok ()) :
    (validateFilesTrace existing files).1 =
      (files.map (fun p => [VEvent.localValidated p.1, VEvent.uniquenessChecked p.1])).flatten := by
  induction files with
  | nil => simp [validateFilesTrace]
  | cons p rest ih =>
    obtain ⟨fname, rs⟩ := p
    rw [validateFilesTrace] at h ⊢
    split at h
    · simp at h
    · rename_i rs' heq1
      split at h
      · simp at h
      · rename_i u heq2
        simp at h
        simp [heq1, heq2]
        exact ih h

theorem validateFilesTrace_per_file_witness :
    (validateFilesTrace [] [("a.yaml", [cmNs "a.yaml" "x"])]).1 =
      ([("a.yaml", [cmNs "a.yaml" "x"])].map
          (fun p => [VEvent.localValidated p.1, VEvent.uniquenessChecked p.1])).flatten := by
  have h : (validateFilesTrace [] [("a.yaml", [cmNs "a.yaml" "x"])]).2 = .ok () := by
    simp [validateFilesTrace, validateResources, validateResource, checkDuplicates,
      alreadyContains, lookupGK, cmNs, Obj.isList, Obj.getItems, Obj.getNamespace,
      Bind.bind, Except.bind]
  simpa using validateFilesTrace_per_file [] [("a.yaml", [cmNs "a.yaml" "x"])] h

/-! ## Lemmas about the list-item walk -/

@[simp] theorem exceptIsOk_ok {ε α : Type} (a : α) : (Except.ok a : Except ε α).isOk = true := rfl

@[simp] theorem exceptIsOk_error {ε α : Type} (e : ε) :
    (Except.error e : Except ε α).isOk = false := rfl

theorem insertDedup_length_le (l : List String) (s : String) :
    l.length ≤ (insertDedup l s).length := by
  unfold insertDedup
  split <;> simp

theorem insertDedup_length_le_succ (l : List String) (s : String) :
    (insertDedup l s).length ≤ l.length + 1 := by
  unfold insertDedup
  split <;> simp

theorem insertDedup_extend (l : List String) (s : String) : l <+: insertDedup l s := by
  unfold insertDedup
  split
  · exact List.prefix_refl l
  · exact ⟨[s], rfl⟩

/-- The `declaredNamespaces` set accumulated over a list's items, starting
from `d` (specification-side description of the fold performed by the
`EachListItem` closure). -/
def itemNamespacesFrom (d : List String) (its : List Obj) : List String :=
  its.foldl (fun acc o => insertDedup acc o.getNamespace) d

/-- The set of distinct namespaces declared by a list's items, in first
occurrence order. -/
def itemDeclaredNamespaces (its : List Obj) : List String :=
  itemNamespacesFrom [] its

theorem itemNamespacesFrom_nil (d : List String) : itemNamespacesFrom d [] = d := rfl

theorem itemNamespacesFrom_cons (d : List String) (o : Obj) (rest : List Obj) :
    itemNamespacesFrom d (o :: rest) =
      itemNamespacesFrom (insertDedup d o.getNamespace) rest := rfl

theorem itemNamespacesFrom_length_le (d : List String) (its : List Obj) :
    d.length ≤ (itemNamespacesFrom d its).length := by
  induction its generalizing d with
  | nil => simp [itemNamespacesFrom]
  | cons o rest ih =>
    rw [itemNamespacesFrom_cons]
    exact le_trans (insertDedup_length_le d o.getNamespace) (ih _)

theorem itemNamespacesFrom_extend (d : List String) (its : List Obj) :
    d <+: itemNamespacesFrom d its := by
  induction its generalizing d with
  | nil => exact List.prefix_refl d
  | cons o rest ih =>
    rw [itemNamespacesFrom_cons]
    exact List.IsPrefix.trans (insertDedup_extend d o.getNamespace) (ih _)

theorem validateListItems_isOk_iff (r : resource) :
    ∀ (its : List Obj) (d : List String) (n : String), d.length ≤ 1 →
      ((validateListItems r d n its).isOk = true ↔
        ((itemNamespacesFrom d its).length ≤ 1 ∧
          ∀ o ∈ its, (validateResource { r with obj := o }).isOk = true)) := by
  intro its
  induction its with
  | nil =>
    intro d n hd
    simp [validateListItems, itemNamespacesFrom_nil, hd]
  | cons o rest ih =>
    intro d n hd
    by_cases hgt : (insertDedup d o.getNamespace).length > 1
    · have hstep : (validateListItems r d n (o :: rest)).isOk = false := by
        rw [validateListItems]
        simp [hgt]
      rw [hstep]
      constructor
      · intro hfalse
        cases hfalse
      · intro hro
        exfalso
        have h2 : 2 ≤ (itemNamespacesFrom d (o :: rest)).length := by
          rw [itemNamespacesFrom_cons]
          exact le_trans hgt (itemNamespacesFrom_length_le _ rest)
        have := hro.1
        omega
    · have hd' : (insertDedup d o.getNamespace).length ≤ 1 := by omega
      cases hv : validateResource { r with obj := o } with
      | error e =>
        have hstep : (validateListItems r d n (o :: rest)).isOk = false := by
          rw [validateListItems]
          simp [hgt, hv]
        rw [hstep]
        simp [List.forall_mem_cons, hv]
      | ok inner' =>
        have hstep : (validateListItems r d n (o :: rest)).isOk
            = (validateListItems r (insertDedup d o.getNamespace) o.getNamespace rest).isOk := by
          rw [validateListItems]
          cases hr : validateListItems r (insertDedup d o.getNamespace) o.getNamespace rest with
          | error e => simp [hgt, hv, hr]
          | ok p =>
            obtain ⟨a, b⟩ := p
            simp [hgt, hv, hr]
        rw [hstep, ih (insertDedup d o.getNamespace) o.getNamespace hd']
        simp [List.forall_mem_cons, hv, itemNamespacesFrom_cons]

theorem validateResourceList_eq (r : resource) (its : List Obj)
    (h : r.obj.getItems = some its) :
    validateResourceList r =
      match validateListItems r [] "" its with
      | .error e => .error e
      | .ok (items', ns) =>
        .ok { r with obj := r.obj.setItems items', listNamespaceName := ns } := by
  rw [validateResourceList]
  split
  · rename_i heq
    rw [h] at heq
    cases heq
  · rename_i its2 heq
    rw [h] at heq
    cases heq
    rfl

theorem validateListItems_conflict (r : resource) :
    ∀ (its : List Obj) (d : List String) (n : String), d.length ≤ 1 →
      2 ≤ (itemNamespacesFrom d its).length →
      (∀ o ∈ its, (validateResource { r with obj := o }).isOk = true) →
      validateListItems r d n its =
        .error (.listNamespaceConflict r.inputFilename
          ((itemNamespacesFrom d its).take 2)) := by
  intro its
  induction its with
  | nil =>
    intro d n hd h2 _
    rw [itemNamespacesFrom_nil] at h2
    omega
  | cons o rest ih =>
    intro d n hd h2 hall
    by_cases hgt : (insertDedup d o.getNamespace).length > 1
    · have hlen : (insertDedup d o.getNamespace).length = 2 := by
        have := insertDedup_length_le_succ d o.getNamespace
        omega
      have hpre : insertDedup d o.getNamespace <+: itemNamespacesFrom d (o :: rest) := by
        rw [itemNamespacesFrom_cons]
        exact itemNamespacesFrom_extend _ rest
      have htake : (itemNamespacesFrom d (o :: rest)).take 2 = insertDedup d o.getNamespace := by
        rw [← hlen]
        exact (List.prefix_iff_eq_take.mp hpre).symm
      rw [validateListItems, htake]
      simp [hgt]
    · have hd' : (insertDedup d o.getNamespace).length ≤ 1 := by omega
      have hvo := hall o (List.mem_cons_self o rest)
      cases hv : validateResource { r with obj := o } with
      | error e =>
        rw [hv] at hvo
        simp at hvo
      | ok inner' =>
        have hrec := ih (insertDedup d o.getNamespace) o.getNamespace hd'
          (by rw [itemNamespacesFrom_cons] at h2; exact h2)
          (fun o' ho' => hall o' (List.mem_cons_of_mem _ ho'))
        rw [validateListItems, itemNamespacesFrom_cons]
        simp [hgt, hv, hrec]

theorem validateListItems_single (r : resource) (v : String) :
    ∀ (its : List Obj) (n : String) (objs : List Obj) (nsF : String),
      validateListItems r [v] n its = .ok (objs, nsF) →
      (∀ o ∈ its, o.getNamespace = v) ∧ nsF = (if its.isEmpty then n else v) := by
  intro its
  induction its with
  | nil =>
    intro n objs nsF h
    rw [validateListItems] at h
    simp at h
    simp [h.2]
  | cons o rest ih =>
    intro n objs nsF h
    rw [validateListItems] at h
    by_cases hov : o.getNamespace = v
    · have hd' : insertDedup [v] o.getNamespace = [v] := by
        simp [insertDedup, hov]
      rw [hd'] at h
      cases hv : validateResource { r with obj := o } with
      | error e => simp [hv] at h
      | ok inner' =>
        cases hr : validateListItems r [v] o.getNamespace rest with
        | error e => simp [hv, hr] at h
        | ok p =>
          obtain ⟨rest', nsF'⟩ := p
          simp [hv, hr] at h
          have hres := ih o.getNamespace rest' nsF' hr
          constructor
          · intro o' ho'
            rcases List.mem_cons.mp ho' with hhead | hmem
            · rw [hhead]
              exact hov
            · exact hres.1 o' hmem
          · have hnsF : nsF = nsF' := h.2.symm
            rw [hnsF, hres.2]
            cases rest <;> simp [hov]
    · have hd' : insertDedup [v] o.getNamespace = [v, o.getNamespace] := by
        simp [insertDedup]
        intro hcontra
        exact absurd hcontra hov
      rw [hd'] at h
      simp at h

/-- The items-share-one-namespace condition the spec states for lists. -/
def itemsHomogeneous (its : List Obj) : Prop :=
  (itemDeclaredNamespaces its).length ≤ 1

/-! ## C5 — list namespace homogeneity -/

/-- C5 (amended): for a List-typed resource, (i) validation succeeds iff the
items declare at most one distinct namespace value AND every item individually
passes validation under the list's inherited scope flag — homogeneity alone is
not sufficient; (ii) when more than one distinct namespace is observed and the
items themselves validate, the result is the hard error naming the input file
and the conflicting namespaces (the first two distinct ones, in order of
occurrence); (iii) on success `listNamespaceName` is the single namespace the
items declared (as read before any clearing), or the empty string for an
empty list. -/
theorem validateResourceList_spec (r : resource) (its : List Obj)
    (h : r.obj.getItems = some its) :
    ((validateResourceList r).isOk = true ↔
      (itemsHomogeneous its ∧
        ∀ o ∈ its, (validateResource { r with obj := o }).isOk = true)) ∧
    (2 ≤ (itemDeclaredNamespaces its).length →
      (∀ o ∈ its, (validateResource { r with obj := o }).isOk = true) →
      validateResourceList r =
        .error (.listNamespaceConflict r.inputFilename
          ((itemDeclaredNamespaces its).take 2))) ∧
    (∀ r', validateResourceList r = .ok r' →
      (∀ o ∈ its, o.getNamespace = r'.listNamespaceName) ∧
      (its = [] → r'.listNamespaceName = "")) := by
  refine ⟨?_, ?_, ?_⟩
  · rw [validateResourceList_eq r its h]
    have hiff := validateListItems_isOk_iff r its [] "" (by simp)
    cases hw : validateListItems r [] "" its with
    | error e =>
      rw [hw] at hiff
      simp only [exceptIsOk_error] at hiff
      simp only [itemsHomogeneous, itemDeclaredNamespaces]
      simp only [exceptIsOk_error]
      exact hiff
    | ok p =>
      obtain ⟨objs, nsF⟩ := p
      rw [hw] at hiff
      simp only [exceptIsOk_ok] at hiff
      simp only [itemsHomogeneous, itemDeclaredNamespaces]
      simpa using hiff
  · intro h2 hall
    rw [validateResourceList_eq r its h]
    rw [validateListItems_conflict r its [] "" (by simp)
      (by simpa [itemDeclaredNamespaces] using h2) hall]
    simp [itemDeclaredNamespaces]
  · intro r' hok
    rw [validateResourceList_eq r its h] at hok
    cases hw : validateListItems r [] "" its with
    | error e =>
      rw [hw] at hok
      simp at hok
    | ok p =>
      obtain ⟨objs, nsF⟩ := p
      rw [hw] at hok
      simp at hok
      cases its with
      | nil =>
        rw [validateListItems] at hw
        simp at hw
        refine ⟨fun o ho => absurd ho (List.not_mem_nil o), fun _ => ?_⟩
        rw [← hok]
        simp [hw.2]
      | cons o rest =>
        rw [validateListItems] at hw
        have hd0 : insertDedup [] o.getNamespace = [o.getNamespace] := by
          simp [insertDedup]
        rw [hd0] at hw
        cases hv : validateResource { r with obj := o } with
        | error e => simp [hv] at hw
        | ok inner' =>
          cases hr : validateListItems r [o.getNamespace] o.getNamespace rest with
          | error e => simp [hv, hr] at hw
          | ok q =>
            obtain ⟨rest', nsF'⟩ := q
            simp [hv, hr] at hw
            have hres := validateListItems_single r o.getNamespace rest o.getNamespace
              rest' nsF' hr
            have hnsF : nsF = o.getNamespace := by
              rw [← hw.2, hres.2]
              cases rest <;> simp
            have hlist : r'.listNamespaceName = nsF := by
              rw [← hok]
            refine ⟨?_, ?_⟩
            · intro o' ho'
              rcases List.mem_cons.mp ho' with hhead | hmem
              · rw [hhead, hlist, hnsF]
              · rw [hlist, hnsF]
                exact hres.1 o' hmem
            · intro hcontra
              cases hcontra

def rC5c : resource :=
  ⟨0, "a.yaml", "d", .yaml,
    .mk "v1" "List" "" "" (some [.mk "v1" "ConfigMap" "c" "" none]), true, ""⟩

/-- C5 counterexample: a namespace-scoped List whose single item declares the
one namespace value `""` — the items share one single namespace value, yet
validation fails (the item is rejected for its missing namespace), so
"validation succeeds if and only if all its items declare one single
namespace value" is false as stated. -/
theorem validateResourceList_homogeneous_but_fails :
    itemDeclaredNamespaces (rC5c.obj.getItems.getD []) = [""] ∧
    (validateResourceList rC5c).isOk = false := by
  constructor
  · rfl
  · simp [validateResourceList, validateListItems, validateResource, insertDedup, rC5c,
      Obj.isList, Obj.getItems, Obj.getNamespace]

def rC5w : resource :=
  ⟨0, "a.yaml", "d", .yaml,
    .mk "v1" "List" "" ""
      (some [.mk "v1" "ConfigMap" "c1" "a" none, .mk "v1" "ConfigMap" "c2" "b" none]),
    false, ""⟩

theorem validateResourceList_spec_witness :
    validateResourceList rC5w = .error (.listNamespaceConflict "a.yaml" ["a", "b"]) := by
  have hspec := (validateResourceList_spec rC5w
      [.mk "v1" "ConfigMap" "c1" "a" none, .mk "v1" "ConfigMap" "c2" "b" none] rfl).2.1
  have h2 : 2 ≤ (itemDeclaredNamespaces
      [Obj.mk "v1" "ConfigMap" "c1" "a" none, Obj.mk "v1" "ConfigMap" "c2" "b" none]).length := by
    decide
  have hall : ∀ o ∈ [Obj.mk "v1" "ConfigMap" "c1" "a" none,
      Obj.mk "v1" "ConfigMap" "c2" "b" none],
      (validateResource { rC5w with obj := o }).isOk = true := by
    intro o ho
    rcases List.mem_cons.mp ho with hh | hmem
    · subst hh
      simp [validateResource, rC5w, Obj.isList, Obj.getItems, Obj.getNamespace]
    · rcases List.mem_cons.mp hmem with hh | hmem2
      · subst hh
        simp [validateResource, rC5w, Obj.isList, Obj.getItems, Obj.getNamespace]
      · cases hmem2
  simpa using hspec h2 hall

/-! ## C10 — unexpanded List namespace handling -/

theorem validateListItems_homogeneous (r : resource) (x : String) (hx : x ≠ "")
    (hns : r.namespaced = false) :
    ∀ (its : List Obj), (∀ o ∈ its, o.getItems = none ∧ o.getNamespace = x) →
      ∀ (d : List String), (d = [] ∨ d = [x]) → ∀ (n : String),
      validateListItems r d n its =
        .ok (its.map (fun o => o.setNamespace ""), if its.isEmpty then n else x) := by
  intro its
  induction its with
  | nil =>
    intro _ d _ n
    rw [validateListItems]
    simp
  | cons o rest ih =>
    intro hits d hd n
    have ho := hits o (List.mem_cons_self o rest)
    have hrest : ∀ o' ∈ rest, o'.getItems = none ∧ o'.getNamespace = x :=
      fun o' ho' => hits o' (List.mem_cons_of_mem _ ho')
    have hd' : insertDedup d o.getNamespace = [x] := by
      rcases hd with rfl | rfl <;> simp [insertDedup, ho.2]
    have hv : validateResource { r with obj := o } =
        .ok { r with obj := o.setNamespace "" } := by
      simp [validateResource, Obj.isList, ho.1, hns, ho.2, hx]
    have hrec := ih hrest [x] (Or.inr rfl) o.getNamespace
    rw [validateListItems, hd', hv, hrec]
    cases rest <;> simp [ho.2]

/-- C10 (amended): for a non-namespace-scoped List whose items are all
non-list documents declaring the same non-empty namespace `x`, validation
succeeds; each item's namespace is cleared in place, while the List's own
`metadata.namespace` field is neither checked nor modified, and
`listNamespaceName` — and hence the classification bucket — is the
pre-clearing namespace `x`.  (An item that is itself a List keeps its own
namespace field: the clearing branch is skipped for list-shaped items, which
is the one correction to the claim.) -/
theorem validateResourceList_unexpanded (r : resource) (x : String) (its : List Obj)
    (h1 : r.obj.getItems = some its) (h2 : r.namespaced = false) (hx : x ≠ "")
    (hits : ∀ o ∈ its, o.getItems = none ∧ o.getNamespace = x) (hne : its ≠ [])
    (hk : ¬(r.obj.getKind = "Namespace" ∧ r.obj.getAPIVersion = "v1")) :
    validateResourceList r =
      .ok { r with
            obj := r.obj.setItems (its.map (fun o => o.setNamespace "")),
            listNamespaceName := x } ∧
    (r.obj.setItems (its.map (fun o => o.setNamespace ""))).getNamespace
      = r.obj.getNamespace ∧
    classifyBucket { r with
                     obj := r.obj.setItems (its.map (fun o => o.setNamespace "")),
                     listNamespaceName := x } = x := by
  have hwalk := validateListItems_homogeneous r x hx h2 its hits [] (Or.inl rfl) ""
  refine ⟨?_, by simp, ?_⟩
  · rw [validateResourceList_eq r its h1, hwalk]
    have : its.isEmpty = false := by
      cases its
      · exact absurd rfl hne
      · rfl
    simp [this]
  · simp [classifyBucket, hk]

def innerItemC10 : Obj := .mk "v1" "List" "inner" "x" (some [])

def rC10c : resource :=
  ⟨0, "a.yaml", "d", .yaml, .mk "v1" "List" "" "" (some [innerItemC10]), false, ""⟩

/-- C10 counterexample: a non-namespace-scoped List whose single item (itself
an empty List) declares namespace `x` passes validation with
`listNamespaceName = "x"`, yet the item's namespace field is NOT cleared — so
"each item's namespace is cleared in place" fails as stated when an item is
itself a List. -/
theorem validateResourceList_nested_item_not_cleared :
    (validateResourceList rC10c).toOption.map
        (fun r' => ((r'.obj.getItems.getD []).map Obj.getNamespace, r'.listNamespaceName))
      = some (["x"], "x") := by
  have hinner0 : validateListItems { rC10c with obj := innerItemC10 } [] "" [] =
      .ok ([], "") := by
    rw [validateListItems]
  have hinner1 : validateResourceList { rC10c with obj := innerItemC10 } =
      .ok { rC10c with obj := innerItemC10.setItems [], listNamespaceName := "" } := by
    rw [validateResourceList_eq { rC10c with obj := innerItemC10 } [] rfl, hinner0]
  have hvr : validateResource { rC10c with obj := innerItemC10 } =
      .ok { rC10c with obj := innerItemC10.setItems [], listNamespaceName := "" } := by
    rw [validateResource, if_pos (show ({ rC10c with obj := innerItemC10 }
      : resource).obj.isList = true from rfl), hinner1]
  have houter0 : validateListItems rC10c (insertDedup [] innerItemC10.getNamespace)
      innerItemC10.getNamespace [] = .ok ([], "x") := by
    rw [validateListItems]
    rfl
  have houter : validateListItems rC10c [] "" [innerItemC10] =
      .ok ([innerItemC10.setItems []], "x") := by
    rw [validateListItems]
    simp only [hvr, houter0]
    rw [if_neg (by decide)]
  rw [validateResourceList_eq rC10c [innerItemC10] rfl, houter]
  rfl

def rC10w : resource :=
  ⟨0, "a.yaml", "d", .yaml,
    .mk "v1" "List" "" "" (some [.mk "v1" "ConfigMap" "c" "x" none]), false, ""⟩

theorem validateResourceList_unexpanded_witness :
    classifyBucket { rC10w with
                     obj := rC10w.obj.setItems
                       ([Obj.mk "v1" "ConfigMap" "c" "x" none].map
                         (fun o => o.setNamespace "")),
                     listNamespaceName := "x" } = "x" := by
  have h := validateResourceList_unexpanded rC10w "x" [Obj.mk "v1" "ConfigMap" "c" "x" none]
    rfl rfl (by decide)
    (by
      intro o ho
      rcases List.mem_cons.mp ho with hh | hmem
      · subst hh
        exact ⟨rfl, rfl⟩
      · cases hmem)
    (by simp)
    (by
      intro hcontra
      exact absurd hcontra.1 (by decide))
  exact h.2.2

/-! ## C2 — YAML multi-document decoding -/

theorem yamlReaderRead_none_docs (s : List String) :
    ∀ b, yamlReaderRead b s = none →
      (splitOnSeparatorsAux b s).filter (fun c => !c.isEmpty) = [] := by
  induction s with
  | nil =>
    intro b h
    rw [yamlReaderRead] at h
    by_cases hb : b.isEmpty
    · rw [splitOnSeparatorsAux]
      simp [hb]
    · simp [hb] at h
  | cons line rest ih =>
    intro b h
    rw [yamlReaderRead] at h
    rw [splitOnSeparatorsAux]
    by_cases hsep : isSeparatorLine line
    · by_cases hb : b.isEmpty
      · simp only [hsep, hb, if_true, ite_true] at h
        simp only [hsep, if_true, ite_true, List.filter_cons, hb]
        simpa using ih [] h
      · simp [hsep, hb] at h
    · simp only [hsep, if_false, ite_false] at h ⊢
      exact ih (b ++ [line]) h

theorem yamlReaderRead_some_docs (s : List String) :
    ∀ b c r, yamlReaderRead b s = some (c, r) →
      (splitOnSeparatorsAux b s).filter (fun x => !x.isEmpty)
        = c :: (splitOnSeparators r).filter (fun x => !x.isEmpty) := by
  induction s with
  | nil =>
    intro b c r h
    rw [yamlReaderRead] at h
    by_cases hb : b.isEmpty
    · simp [hb] at h
    · simp only [hb, if_false, ite_false, Option.some.injEq, Prod.mk.injEq] at h
      obtain ⟨rfl, rfl⟩ := h
      rw [splitOnSeparatorsAux]
      simp [splitOnSeparators, splitOnSeparatorsAux, hb]
  | cons line rest ih =>
    intro b c r h
    rw [yamlReaderRead] at h
    rw [splitOnSeparatorsAux]
    by_cases hsep : isSeparatorLine line
    · by_cases hb : b.isEmpty
      · simp only [hsep, hb, if_true, ite_true] at h
        simp only [hsep, if_true, ite_true, List.filter_cons, hb]
        simpa using ih [] c r h
      · simp only [hsep, hb, if_true, ite_true, if_false, ite_false, Option.some.injEq,
          Prod.mk.injEq] at h
        obtain ⟨rfl, rfl⟩ := h
        simp only [hsep, if_true, ite_true, List.filter_cons, hb]
        rfl
    · simp only [hsep, if_false, ite_false] at h ⊢
      exact ih (b ++ [line]) c r h

theorem DecodeYAML_total (f : List String → Obj) (s : List String) :
    DecodeYAML (fun c => Except.ok (f c)) s =
      match yamlReaderRead [] s with
      | none => .ok none
      | some (b, r) => .ok (some (b, f b, r)) := by
  unfold DecodeYAML
  cases hr : yamlReaderRead [] s with
  | none => rfl
  | some p =>
    obtain ⟨b, r⟩ := p
    rfl

theorem decodeYAMLStream_complete_aux (f : List String → Obj) :
    ∀ (n : Nat) (s : List String), s.length ≤ n →
      decodeYAMLStream (fun c => Except.ok (f c)) s =
        .ok ((yamlDocs s).map (fun c => (c, f c))) := by
  intro n
  induction n with
  | zero =>
    intro s hs
    have hnil : s = [] := List.length_eq_zero.mp (Nat.le_zero.mp hs)
    subst hnil
    rw [decodeYAMLStream]
    simp [DecodeYAML, yamlReaderRead, yamlDocs, splitOnSeparators, splitOnSeparatorsAux]
  | succ n ih =>
    intro s hs
    rw [decodeYAMLStream]
    split
    · rename_i e heq
      rw [DecodeYAML_total] at heq
      cases hr : yamlReaderRead [] s with
      | none => rw [hr] at heq; simp at heq
      | some p =>
        obtain ⟨b, r⟩ := p
        rw [hr] at heq
        simp at heq
    · rename_i heq
      rw [DecodeYAML_total] at heq
      cases hr : yamlReaderRead [] s with
      | some p =>
        obtain ⟨b, r⟩ := p
        rw [hr] at heq
        simp at heq
      | none =>
        have hdocs := yamlReaderRead_none_docs s [] hr
        have : yamlDocs s = [] := hdocs
        rw [this]
        simp
    · rename_i bytes o rest heq
      rw [DecodeYAML_total] at heq
      cases hr : yamlReaderRead [] s with
      | none => rw [hr] at heq; simp at heq
      | some p =>
        obtain ⟨b, r⟩ := p
        rw [hr] at heq
        simp only [Except.ok.injEq, Option.some.injEq, Prod.mk.injEq] at heq
        obtain ⟨h1, h2, h3⟩ := heq
        subst h1
        subst h2
        subst h3
        have hlt : r.length < s.length := yamlReaderRead_start_length hr
        have hrec := ih r (by omega)
        rw [hrec]
        have hdocs : yamlDocs s = b :: yamlDocs r := yamlReaderRead_some_docs s [] b r hr
        rw [hdocs]
        simp

/-- C2: for every YAML-format input stream all of whose documents parse
(a parser `f` standing in for the external `yaml.Unmarshal`), repeatedly
calling `DecodeYAML` until end of stream yields exactly one
`(rawBytes, parsedForm)` pair per non-empty `---`-delimited document of the
stream, in order: every non-empty document is produced, and empty documents
yield no output and are not an error. -/
theorem decodeYAMLStream_complete (f : List String → Obj) (s : List String) :
    decodeYAMLStream (fun c => Except.ok (f c)) s =
      .ok ((yamlDocs s).map (fun c => (c, f c))) :=
  decodeYAMLStream_complete_aux f s.length s (Nat.le_refl _)

/-! ## C3 — filenames of list-expanded resources -/

theorem expandListItems_mem (encode : Obj → Except String String) (input : String)
    (fmt : Format) :
    ∀ (items : List Obj) (idx : Nat) (acc : List resource) (r' : resource),
      r' ∈ (expandListItems encode input fmt idx acc items).2 →
      r' ∈ acc ∨ (r'.format = fmt ∧ r'.inputFilename = input ∧ r'.obj ∈ items) := by
  intro items
  induction items with
  | nil =>
    intro idx acc r' h
    rw [expandListItems] at h
    exact Or.inl h
  | cons o rest ih =>
    intro idx acc r' h
    rw [expandListItems] at h
    split at h
    · exact Or.inl h
    · rcases ih (idx + 1) _ r' h with hacc | hfact
      · rcases List.mem_append.mp hacc with h1 | h2
        · exact Or.inl h1
        · right
          rename_i data heq
          have hr' := List.mem_singleton.mp h2
          subst hr'
          exact ⟨rfl, rfl, List.mem_cons_self o rest⟩
      · exact Or.inr ⟨hfact.1, hfact.2.1, List.mem_cons_of_mem _ hfact.2.2⟩

/-- C3 (amended): a resource produced by expanding a List carries the item
itself as its document (no longer a List), so `resourceFilename` names it like
an ordinary resource — `<Kind>-<name>.<format>`, or `namespace.<format>` for a
`v1` `Namespace` item; the indexed
`<Kind>-<index>-<inputFileBaseNameWithoutExtension>.<format>` pattern applies
only to a resource whose document is itself a List (a List kept whole when
expansion is disabled, or a nested List item). -/
theorem expandedItemFilename (encode : Obj → Except String String) (input : String)
    (fmt : Format) (items : List Obj) (r' : resource)
    (hmem : r' ∈ (expandListItems encode input fmt 0 [] items).2) :
    (r'.obj.isList = false →
      ¬(r'.obj.getKind = "Namespace" ∧ r'.obj.getAPIVersion = "v1") →
      resourceFilename r' = r'.obj.getKind ++ "-" ++ r'.obj.getName ++ "." ++ fmt.toStr) ∧
    (r'.obj.isList = false → r'.obj.getKind = "Namespace" → r'.obj.getAPIVersion = "v1" →
      resourceFilename r' = "namespace." ++ fmt.toStr) ∧
    (r'.obj.isList = true →
      resourceFilename r' = r'.obj.getKind ++ "-" ++ toString r'.idx ++ "-" ++
        trimSuffix (filepathBase input) (filepathExt (filepathBase input)) ++ "."
        ++ fmt.toStr) := by
  rcases expandListItems_mem encode input fmt items 0 [] r' hmem with habs | hfact
  · cases habs
  · obtain ⟨hf, hi, _⟩ := hfact
    refine ⟨?_, ?_, ?_⟩
    · intro h1 h2
      simp [resourceFilename, h1, h2, hf]
    · intro h1 h2 h3
      simp [resourceFilename, h1, h2, h3, hf]
    · intro h1
      simp [resourceFilename, h1, hf, hi]

def listDep : Obj :=
  .mk "v1" "List" "" "" (some [.mk "apps/v1" "Deployment" "foo" "ns2" none])

/-- C3 counterexample: expanding a one-item `v1/List` read from `b.json`
yields a resource whose filename is `Deployment-foo.json`, not the claimed
indexed pattern `Deployment-0-b.json`: the expanded item is not a List, so
`resourceFilename` takes the ordinary `<Kind>-<name>.<format>` branch. -/
theorem expandedItemFilename_not_indexed :
    (decodeResourceManifestJSON (fun _ => .ok listDep) (fun _ => .ok "enc") true
        "b.json" "stream").toOption.map (fun l => l.map resourceFilename)
      = some ["Deployment-foo.json"] ∧
    "Deployment-foo.json" ≠ "Deployment-0-b.json" := by
  constructor
  · rfl
  · decide

def itemC3w : Obj := .mk "apps/v1" "Deployment" "web" "ns2" none

theorem expandedItemFilename_witness :
    resourceFilename
        ⟨0, "b.json", "enc", Format.json, itemC3w, false, ""⟩
      = "Deployment-web.json" := by
  have hmem : (⟨0, "b.json", "enc", Format.json, itemC3w, false, ""⟩ : resource)
      ∈ (expandListItems (fun _ => Except.ok "enc") "b.json" Format.json 0 [] [itemC3w]).2 := by
    simp [expandListItems, itemC3w]
  have h := (expandedItemFilename (fun _ => Except.ok "enc") "b.json" Format.json
      [itemC3w] ⟨0, "b.json", "enc", Format.json, itemC3w, false, ""⟩ hmem).1 rfl
      (by decide)
  simpa [itemC3w, Format.toStr] using h

/-! ## C4 — encode failure during list expansion -/

def listTwo : Obj :=
  .mk "v1" "List" "" ""
    (some [.mk "v1" "ConfigMap" "a" "ns2" none, .mk "v1" "ConfigMap" "b" "ns2" none])

def encodeFailOnB : Obj → Except String String :=
  fun o => if o.getName = "b" then .error "boom" else .ok "enc"

/-- C4: when re-encoding a list item fails during expansion, decoding of the
file does NOT abort: the error returned by the `EachListItem` call in
`decodeResourceManifest` is discarded, so the file decodes successfully,
keeping the items encoded before the failure and silently dropping the failing
item and the rest of the list — contradicting the claimed hard error. -/
theorem decode_swallows_encode_error :
    encodeFailOnB (.mk "v1" "ConfigMap" "b" "ns2" none) = .error "boom" ∧
    (decodeResourceManifestJSON (fun _ => .ok listTwo) encodeFailOnB true "b.json"
        "stream").toOption.map (fun l => l.map (fun r => r.obj.getName))
      = some ["a"] := by
  exact ⟨rfl, rfl⟩
